import Mathlib

/-!
# Verification of the slugledger event-ledger service

Shallow embedding of the core of `src/index.ts` (the final design iteration:
the Hono handlers for `POST /events`, `GET /events`, the legacy `/jobs`
handler, together with the Payload Codec `JSON.stringify` / `JSON.parse`
round-trip used by those handlers) and proofs of the specification's claims
about them.

Conventions of the embedding:
* JSON values are the inductive type `Json`.  JSON numbers are modelled as
  integers (`Int`): the service's own writes (`JSON.stringify` of request
  payloads) and all claims under study only rely on integer-valued numbers;
  fractional/exponent literals are outside the model and noted where relevant.
* The D1 `events` table is a `List EventRow`; executing the fixed SQL
  statements the handlers prepare is modelled by `insertEvent` (the
  `INSERT INTO events` statement, raising the SQLite unique-constraint
  error message on a duplicate primary key) and `scanEvents` (the
  `SELECT ... ORDER BY ts DESC LIMIT ?` statement, comparing `TEXT` columns
  with SQLite's default BINARY collation, i.e. lexicographically).
* Host-supplied effects are passed explicitly: `generateEventId()` /
  `crypto.randomUUID()` as a `genId : String` argument, and
  `new Date().toISOString()` (the Timestamp Authority) as `now : String`.
* An HTTP response `c.json(body, status)` is a pair `HttpResponse`.
-/

namespace Slugledger

/-- JSON values as handled by the Payload Codec.  Object fields keep their
textual order (as `JSON.parse` / `JSON.stringify` do); numbers are modelled
as integers. -/
inductive Json where
  | null : Json
  | bool (b : Bool) : Json
  | num (n : Int) : Json
  | str (s : String) : Json
  | arr (elems : List Json) : Json
  | obj (fields : List (String × Json)) : Json
deriving Repr

/-! ## Character-level helpers shared by the codec model -/

/-- The four JSON whitespace characters (also the ones `JSON.parse` skips). -/
def isWs (c : Char) : Bool :=
  c = ' ' || c = '\t' || c = '\n' || c = '\r'

/-- Drop leading JSON whitespace. -/
def skipWs : List Char → List Char
  | [] => []
  | c :: cs => if isWs c then skipWs cs else c :: cs

/-- Decimal digit `d < 10` as a character. -/
def digitChar (d : Nat) : Char :=
  match d with
  | 0 => '0' | 1 => '1' | 2 => '2' | 3 => '3' | 4 => '4'
  | 5 => '5' | 6 => '6' | 7 => '7' | 8 => '8' | _ => '9'

/-- Lower-case hexadecimal digit `d < 16` as a character (as produced by the
`\u00XX` escapes of `JSON.stringify`). -/
def hexDigitChar (d : Nat) : Char :=
  match d with
  | 0 => '0' | 1 => '1' | 2 => '2' | 3 => '3' | 4 => '4'
  | 5 => '5' | 6 => '6' | 7 => '7' | 8 => '8' | 9 => '9'
  | 10 => 'a' | 11 => 'b' | 12 => 'c' | 13 => 'd' | 14 => 'e' | _ => 'f'

/-- Decimal digits of `n`, most significant first (`"0"` for `0`), exactly the
form `JSON.stringify` prints an integer-valued number in. -/
def natChars (n : Nat) : List Char :=
  if _h : n < 10 then [digitChar n]
  else natChars (n / 10) ++ [digitChar (n % 10)]
  decreasing_by exact Nat.div_lt_self (by omega) (by omega)

/-- Decimal character sequence of an integer, as `JSON.stringify` prints it. -/
def intChars (n : Int) : List Char :=
  if n < 0 then '-' :: natChars n.natAbs else natChars n.toNat

/-- The escape sequence `JSON.stringify` emits for one character of a string:
`"` and `\` get a backslash escape, the five named control characters get
their short escapes, the remaining control characters (code points `< 0x20`)
become `\u00XX`, and every other character is emitted verbatim. -/
def escapeChar (c : Char) : List Char :=
  if c = '"' then ['\\', '"']
  else if c = '\\' then ['\\', '\\']
  else if c = '\n' then ['\\', 'n']
  else if c = '\r' then ['\\', 'r']
  else if c = '\t' then ['\\', 't']
  else if c = Char.ofNat 8 then ['\\', 'b']
  else if c = Char.ofNat 12 then ['\\', 'f']
  else if c.toNat < 32 then
    ['\\', 'u', '0', '0', hexDigitChar (c.toNat / 16), hexDigitChar (c.toNat % 16)]
  else [c]

/-- Escape every character of a string body. -/
def escapeList : List Char → List Char
  | [] => []
  | c :: cs => escapeChar c ++ escapeList cs

/-- A JSON string literal (including the surrounding quotes). -/
def emitString (s : String) : List Char :=
  '"' :: escapeList s.data ++ ['"']

/-! ## `JSON.stringify` (Payload Codec `encode`)

`JSON.stringify(v)` for a JSON value `v`: no whitespace, fields and elements
separated by `,`, object fields printed as `"key":value`.  For values of type
`Json` the serializer always succeeds (the `TypeError` on circular values,
which the `POST /events` handler maps to a 400, cannot arise). -/

mutual

def emitValue : Json → List Char
  | .num n => intChars n
  | .str s => emitString s
  | .bool false => ['f', 'a', 'l', 's', 'e']
  | .null => ['n', 'u', 'l', 'l']
  | .bool true => ['t', 'r', 'u', 'e']
  | .arr xs => '[' :: emitElems xs ++ [']']
  | .obj fs => '{' :: emitFields fs ++ ['}']

def emitElems : List Json → List Char
  | [] => []
  | x :: xs => emitValue x ++ emitElemsTail xs

def emitElemsTail : List Json → List Char
  | [] => []
  | x :: xs => ',' :: (emitValue x ++ emitElemsTail xs)

def emitFields : List (String × Json) → List Char
  | [] => []
  | f :: fs => (emitString f.1 ++ ':' :: emitValue f.2) ++ emitFieldsTail fs

def emitFieldsTail : List (String × Json) → List Char
  | [] => []
  | f :: fs => ',' :: ((emitString f.1 ++ ':' :: emitValue f.2) ++ emitFieldsTail fs)

end

/-- Encode: `JSON.stringify` on a JSON value, as used by the handlers. -/
def jsonStringify (v : Json) : String :=
  String.mk (emitValue v)

/-! ## `JSON.parse` (Payload Codec `decode`, model of the host runtime)

A recursive-descent JSON parser over the character list, with an explicit
fuel argument for termination.  It accepts exactly the JSON grammar
restricted to integer number literals (it is slightly more liberal than the
host's `JSON.parse` on redundant leading zeros, and stricter on
fractional/exponent number forms; no claim depends on that boundary). -/

/-- Value of a hexadecimal digit character. -/
def hexVal? (c : Char) : Option Nat :=
  if '0' ≤ c ∧ c ≤ '9' then some (c.toNat - 48)
  else if 'a' ≤ c ∧ c ≤ 'f' then some (c.toNat - 87)
  else if 'A' ≤ c ∧ c ≤ 'F' then some (c.toNat - 55)
  else none

/-- Translate a single-character escape (everything but `\u`). -/
def escOf? (e : Char) : Option Char :=
  if e = '"' then some '"'
  else if e = '\\' then some '\\'
  else if e = '/' then some '/'
  else if e = 'n' then some '\n'
  else if e = 'r' then some '\r'
  else if e = 't' then some '\t'
  else if e = 'b' then some (Char.ofNat 8)
  else if e = 'f' then some (Char.ofNat 12)
  else none

/-- Parse the body of a string literal (the opening quote already consumed),
up to and including the closing quote.  Raw control characters are rejected,
as `JSON.parse` rejects them. -/
def parseStringChars : List Char → Option (List Char × List Char)
  | [] => none
  | c :: r =>
    if c = '"' then some ([], r)
    else if c = '\\' then
      match r with
      | [] => none
      | e :: r2 =>
        if e = 'u' then
          match r2 with
          | a :: b :: c2 :: d :: r3 =>
            match hexVal? a, hexVal? b, hexVal? c2, hexVal? d with
            | some ha, some hb, some hc, some hd =>
              (parseStringChars r3).map
                (fun p => (Char.ofNat (((ha * 16 + hb) * 16 + hc) * 16 + hd) :: p.1, p.2))
            | _, _, _, _ => none
          | _ => none
        else
          match escOf? e with
          | some ec => (parseStringChars r2).map (fun p => (ec :: p.1, p.2))
          | none => none
    else if c.toNat < 32 then none
    else (parseStringChars r).map (fun p => (c :: p.1, p.2))

/-- Accumulate a run of decimal digits (most significant first) onto `acc`,
returning the value together with the unconsumed remainder. -/
def parseDigits (acc : Nat) : List Char → Nat × List Char
  | [] => (acc, [])
  | c :: r =>
    if c.isDigit then parseDigits (10 * acc + (c.toNat - 48)) r
    else (acc, c :: r)

mutual

/-- Parse one JSON value (after skipping leading whitespace). -/
def parseValue : Nat → List Char → Option (Json × List Char)
  | 0, _ => none
  | fuel + 1, input =>
    match skipWs input with
    | [] => none
    | c :: r =>
      if c = '-' then
        match r with
        | [] => none
        | d :: r2 =>
          if d.isDigit then
            let p := parseDigits 0 (d :: r2)
            some (.num (-(p.1 : Int)), p.2)
          else none
      else if c.isDigit then
        let p := parseDigits 0 (c :: r)
        some (.num (p.1 : Int), p.2)
      else if c = '"' then
        (parseStringChars r).map (fun p => (.str (String.mk p.1), p.2))
      else if c = 'n' then
        match r with
        | 'u' :: 'l' :: 'l' :: r2 => some (.null, r2)
        | _ => none
      else if c = 't' then
        match r with
        | 'r' :: 'u' :: 'e' :: r2 => some (.bool true, r2)
        | _ => none
      else if c = 'f' then
        match r with
        | 'a' :: 'l' :: 's' :: 'e' :: r2 => some (.bool false, r2)
        | _ => none
      else if c = '[' then
        match skipWs r with
        | [] => none
        | d :: r2 =>
          if d = ']' then some (.arr [], r2)
          else
            match parseValue fuel (d :: r2) with
            | none => none
            | some (v, r3) =>
              match parseElemsTail fuel r3 with
              | none => none
              | some (vs, r4) => some (.arr (v :: vs), r4)
      else if c = '{' then
        match skipWs r with
        | [] => none
        | d :: r2 =>
          if d = '}' then some (.obj [], r2)
          else
            match parseField fuel (d :: r2) with
            | none => none
            | some (f, r3) =>
              match parseFieldsTail fuel r3 with
              | none => none
              | some (fs, r4) => some (.obj (f :: fs), r4)
      else none

/-- After one array element: either `]` closes the array or `,` continues it. -/
def parseElemsTail : Nat → List Char → Option (List Json × List Char)
  | 0, _ => none
  | fuel + 1, input =>
    match skipWs input with
    | [] => none
    | c :: r =>
      if c = ']' then some ([], r)
      else if c = ',' then
        match parseValue fuel r with
        | none => none
        | some (v, r2) =>
          match parseElemsTail fuel r2 with
          | none => none
          | some (vs, r3) => some (v :: vs, r3)
      else none

/-- One `"key":value` object member. -/
def parseField : Nat → List Char → Option ((String × Json) × List Char)
  | 0, _ => none
  | fuel + 1, input =>
    match skipWs input with
    | [] => none
    | c :: r =>
      if c = '"' then
        match parseStringChars r with
        | none => none
        | some (k, r2) =>
          match skipWs r2 with
          | [] => none
          | c2 :: r3 =>
            if c2 = ':' then
              match parseValue fuel r3 with
              | none => none
              | some (v, r4) => some ((String.mk k, v), r4)
            else none
      else none

/-- After one object member: either `}` closes the object or `,` continues it. -/
def parseFieldsTail : Nat → List Char → Option (List (String × Json) × List Char)
  | 0, _ => none
  | fuel + 1, input =>
    match skipWs input with
    | [] => none
    | c :: r =>
      if c = '}' then some ([], r)
      else if c = ',' then
        match parseField fuel r with
        | none => none
        | some (f, r2) =>
          match parseFieldsTail fuel r2 with
          | none => none
          | some (fs, r3) => some (f :: fs, r3)
      else none

end

/-- Decode: `JSON.parse` on a whole text: one value, possibly surrounded by
whitespace, consuming the entire input; `none` models the thrown
`SyntaxError`.  The fuel `t.length + 1` is enough for any parse, since every
recursive call consumes at least one input character. -/
def jsonParse (t : String) : Option Json :=
  match parseValue (t.length + 1) t.data with
  | none => none
  | some (v, rest) =>
    match skipWs rest with
    | [] => some v
    | _ :: _ => none

/-! ## Round-trip: `decode (encode v) = v`

The parser applied to the serializer's output.  The statements thread an
explicit fuel lower bound (`fuelValue` etc.), an arbitrary unconsumed
suffix `rest`, and — because a number literal is delimited only by the
character after it — the condition `okTail` that the suffix does not start
with a digit (trivially true at every call site of the serializer). -/

mutual

/-- Fuel needed by `parseValue` to parse `emitValue v`. -/
def fuelValue : Json → Nat
  | .null => 1
  | .bool _ => 1
  | .num _ => 1
  | .str _ => 1
  | .arr xs => 1 + fuelElems xs
  | .obj fs => 1 + fuelFields fs

/-- Fuel needed by `parseElemsTail` past the first element (minus one). -/
def fuelElems : List Json → Nat
  | [] => 0
  | x :: xs => 1 + fuelValue x + fuelElems xs

/-- Fuel needed by `parseFieldsTail` past the first member (minus one). -/
def fuelFields : List (String × Json) → Nat
  | [] => 0
  | f :: fs => 1 + fuelValue f.2 + fuelFields fs

end

/-- A suffix that cannot be absorbed into a preceding number literal. -/
def okTail : List Char → Bool
  | [] => true
  | c :: _ => !c.isDigit

theorem skipWs_cons {c : Char} (t : List Char) (h : isWs c = false) :
    skipWs (c :: t) = c :: t := by
  simp [skipWs, h]

theorem isWs_elim {c : Char} (h : isWs c = true) :
    c = ' ' ∨ c = '\t' ∨ c = '\n' ∨ c = '\r' := by
  simpa [isWs, or_assoc] using h

theorem not_ws_of_isDigit {c : Char} (h : c.isDigit = true) : isWs c = false := by
  cases hw : isWs c
  · rfl
  · rcases isWs_elim hw with h1 | h1 | h1 | h1 <;> subst h1 <;> exact absurd h (by decide)

theorem ne_of_isDigit {c : Char} (x : Char) (h : c.isDigit = true)
    (hx : x.isDigit = false) : c ≠ x := by
  intro he; subst he; rw [h] at hx; cases hx

theorem digitChar_isDigit : ∀ d, d < 10 → (digitChar d).isDigit = true := by decide

theorem digitChar_toNat : ∀ d, d < 10 → (digitChar d).toNat - 48 = d := by decide

theorem hexVal_hexDigitChar : ∀ d, d < 16 → hexVal? (hexDigitChar d) = some d := by decide

theorem natChars_shape (n : Nat) :
    ∃ d t, natChars n = d :: t ∧ d.isDigit = true := by
  induction n using Nat.strong_induction_on with
  | _ n ih =>
    by_cases h : n < 10
    · exact ⟨digitChar n, [], by rw [natChars]; simp [h], digitChar_isDigit n h⟩
    · obtain ⟨d, t, hdt, hdig⟩ := ih (n / 10) (Nat.div_lt_self (by omega) (by omega))
      refine ⟨d, t ++ [digitChar (n % 10)], ?_, hdig⟩
      rw [natChars]; simp [h, hdt]

theorem parseDigits_step {c : Char} (acc : Nat) (r : List Char) (h : c.isDigit = true) :
    parseDigits acc (c :: r) = parseDigits (10 * acc + (c.toNat - 48)) r := by
  simp [parseDigits, h]

theorem parseDigits_stop (acc : Nat) (rest : List Char) (h : okTail rest = true) :
    parseDigits acc rest = (acc, rest) := by
  cases rest with
  | nil => simp [parseDigits]
  | cons c r =>
    have hc : c.isDigit = false := by simpa [okTail] using h
    simp [parseDigits, hc]

theorem parseDigits_natChars (n : Nat) :
    ∀ acc rest, parseDigits acc (natChars n ++ rest) =
      parseDigits (acc * 10 ^ (natChars n).length + n) rest := by
  induction n using Nat.strong_induction_on with
  | _ n ih =>
    intro acc rest
    by_cases h : n < 10
    · rw [natChars]
      simp only [h, dite_true, List.singleton_append, List.length_singleton]
      rw [parseDigits_step acc _ (digitChar_isDigit n h), digitChar_toNat n h]
      congr 1
      simp [pow_one]; omega
    · have hdiv : n / 10 < n := Nat.div_lt_self (by omega) (by omega)
      conv_lhs => rw [natChars]
      conv_rhs => rw [natChars]
      simp only [h, dite_false, List.append_assoc, List.cons_append, List.nil_append,
        List.length_append, List.length_singleton]
      rw [ih (n / 10) hdiv]
      rw [parseDigits_step _ _ (digitChar_isDigit (n % 10) (Nat.mod_lt n (by omega))),
        digitChar_toNat (n % 10) (Nat.mod_lt n (by omega))]
      congr 1
      have h10 : 10 ^ ((natChars (n / 10)).length + 1) =
          10 ^ (natChars (n / 10)).length * 10 := pow_succ 10 _
      have := Nat.div_add_mod n 10
      nlinarith [this, h10]

theorem parseDigits_natChars_all (n : Nat) (rest : List Char) (h : okTail rest = true) :
    parseDigits 0 (natChars n ++ rest) = (n, rest) := by
  rw [parseDigits_natChars, parseDigits_stop _ _ h]
  simp

theorem psc_quote (r : List Char) : parseStringChars ('"' :: r) = some ([], r) := by
  rw [parseStringChars.eq_def]
  simp +decide

theorem psc_esc (e g : Char) (r : List Char) (he : escOf? e = some g) (hu : e ≠ 'u') :
    parseStringChars ('\\' :: e :: r) =
      (parseStringChars r).map (fun p => (g :: p.1, p.2)) := by
  rw [parseStringChars.eq_def]
  simp +decide [he, hu]

theorem psc_u (a b x y : Char) (va vb vx vy : Nat) (r : List Char)
    (ha : hexVal? a = some va) (hb : hexVal? b = some vb)
    (hx : hexVal? x = some vx) (hy : hexVal? y = some vy) :
    parseStringChars ('\\' :: 'u' :: a :: b :: x :: y :: r) =
      (parseStringChars r).map
        (fun p => (Char.ofNat (((va * 16 + vb) * 16 + vx) * 16 + vy) :: p.1, p.2)) := by
  rw [parseStringChars.eq_def]
  simp +decide [ha, hb, hx, hy]

theorem psc_plain (c : Char) (r : List Char) (h1 : c ≠ '"') (h2 : c ≠ '\\')
    (h8 : ¬c.toNat < 32) :
    parseStringChars (c :: r) = (parseStringChars r).map (fun p => (c :: p.1, p.2)) := by
  rw [parseStringChars.eq_def]
  simp [h1, h2, h8]

theorem parseStringChars_escapeList (l : List Char) (rest : List Char) :
    parseStringChars (escapeList l ++ '"' :: rest) = some (l, rest) := by
  induction l with
  | nil => simpa [escapeList] using psc_quote rest
  | cons c t ih =>
    by_cases h1 : c = '"'
    · subst h1
      have he : escapeChar '"' = ['\\', '"'] := by decide
      simp only [escapeList, he, List.cons_append, List.nil_append]
      rw [psc_esc '"' '"' _ (by decide) (by decide), ih]
      rfl
    by_cases h2 : c = '\\'
    · subst h2
      have he : escapeChar '\\' = ['\\', '\\'] := by decide
      simp only [escapeList, he, List.cons_append, List.nil_append]
      rw [psc_esc '\\' '\\' _ (by decide) (by decide), ih]
      rfl
    by_cases h3 : c = '\n'
    · subst h3
      have he : escapeChar '\n' = ['\\', 'n'] := by decide
      simp only [escapeList, he, List.cons_append, List.nil_append]
      rw [psc_esc 'n' '\n' _ (by decide) (by decide), ih]
      rfl
    by_cases h4 : c = '\r'
    · subst h4
      have he : escapeChar '\r' = ['\\', 'r'] := by decide
      simp only [escapeList, he, List.cons_append, List.nil_append]
      rw [psc_esc 'r' '\r' _ (by decide) (by decide), ih]
      rfl
    by_cases h5 : c = '\t'
    · subst h5
      have he : escapeChar '\t' = ['\\', 't'] := by decide
      simp only [escapeList, he, List.cons_append, List.nil_append]
      rw [psc_esc 't' '\t' _ (by decide) (by decide), ih]
      rfl
    by_cases h6 : c = Char.ofNat 8
    · subst h6
      have he : escapeChar (Char.ofNat 8) = ['\\', 'b'] := by decide
      simp only [escapeList, he, List.cons_append, List.nil_append]
      rw [psc_esc 'b' (Char.ofNat 8) _ (by decide) (by decide), ih]
      rfl
    by_cases h7 : c = Char.ofNat 12
    · subst h7
      have he : escapeChar (Char.ofNat 12) = ['\\', 'f'] := by decide
      simp only [escapeList, he, List.cons_append, List.nil_append]
      rw [psc_esc 'f' (Char.ofNat 12) _ (by decide) (by decide), ih]
      rfl
    by_cases h8 : c.toNat < 32
    · have hd16 : c.toNat / 16 < 16 := by omega
      have hm16 : c.toNat % 16 < 16 := by omega
      have he : escapeChar c =
          ['\\', 'u', '0', '0', hexDigitChar (c.toNat / 16), hexDigitChar (c.toNat % 16)] := by
        simp [escapeChar, h1, h2, h3, h4, h5, h6, h7, h8]
      simp only [escapeList, he, List.cons_append, List.nil_append]
      rw [psc_u '0' '0' _ _ 0 0 (c.toNat / 16) (c.toNat % 16) _ (by decide) (by decide)
        (hexVal_hexDigitChar _ hd16) (hexVal_hexDigitChar _ hm16), ih]
      have hc : Char.ofNat (((0 * 16 + 0) * 16 + c.toNat / 16) * 16 + c.toNat % 16) = c := by
        rw [show ((0 * 16 + 0) * 16 + c.toNat / 16) * 16 + c.toNat % 16 = c.toNat by omega,
          Char.ofNat_toNat]
      rw [hc]
      rfl
    · have he : escapeChar c = [c] := by
        simp [escapeChar, h1, h2, h3, h4, h5, h6, h7, h8]
      simp only [escapeList, he, List.cons_append, List.nil_append]
      rw [psc_plain c _ h1 h2 h8, ih]
      rfl


theorem okTail_elems (xs : List Json) (r : List Char) :
    okTail (emitElemsTail xs ++ ']' :: r) = true := by
  cases xs <;> simp +decide [emitElemsTail, okTail]

theorem okTail_fields (fs : List (String × Json)) (r : List Char) :
    okTail (emitFieldsTail fs ++ '}' :: r) = true := by
  cases fs <;> simp +decide [emitFieldsTail, okTail]

theorem emitValue_shape (v : Json) :
    ∃ c t, emitValue v = c :: t ∧ isWs c = false ∧ c ≠ ']' := by
  cases v with
  | null => exact ⟨'n', _, rfl, by decide, by decide⟩
  | bool b =>
    cases b
    · exact ⟨'f', _, rfl, by decide, by decide⟩
    · exact ⟨'t', _, rfl, by decide, by decide⟩
  | num n =>
    by_cases hn : n < 0
    · exact ⟨'-', natChars n.natAbs, by simp [emitValue, intChars, hn], by decide, by decide⟩
    · obtain ⟨d, t, hdt, hdig⟩ := natChars_shape n.toNat
      exact ⟨d, t, by simp [emitValue, intChars, hn, hdt], not_ws_of_isDigit hdig,
        ne_of_isDigit _ hdig (by decide)⟩
  | str s => exact ⟨'"', _, rfl, by decide, by decide⟩
  | arr xs => exact ⟨'[', _, rfl, by decide, by decide⟩
  | obj fs => exact ⟨'{', _, rfl, by decide, by decide⟩


theorem pv_num (f : Nat) (n : Int) (rest : List Char) (hr : okTail rest = true) :
    parseValue (f + 1) (emitValue (.num n) ++ rest) = some (.num n, rest) := by
  by_cases hn : n < 0
  · obtain ⟨d, t, hdt, hdig⟩ := natChars_shape n.natAbs
    rw [parseValue.eq_def]
    simp only [emitValue, intChars, if_pos hn, hdt, List.cons_append]
    rw [skipWs_cons _ (by decide)]
    simp +decide only []
    rw [show d :: (t ++ rest) = (d :: t) ++ rest from rfl, ← hdt,
      parseDigits_natChars_all _ _ hr]
    simp only [hdig, if_true, ite_true]
    have hnn : -((n.natAbs : Nat) : Int) = n := by omega
    rw [hnn]
  · obtain ⟨d, t, hdt, hdig⟩ := natChars_shape n.toNat
    rw [parseValue.eq_def]
    simp only [emitValue, intChars, if_neg hn, hdt, List.cons_append]
    rw [skipWs_cons _ (not_ws_of_isDigit hdig)]
    simp only [ne_of_isDigit '-' hdig (by decide), if_false, ite_false, hdig, if_true, ite_true]
    rw [show d :: (t ++ rest) = (d :: t) ++ rest from rfl, ← hdt,
      parseDigits_natChars_all _ _ hr]
    simp [Int.toNat_of_nonneg (by omega : (0:Int) ≤ n)]

theorem pv_str (f : Nat) (s : String) (rest : List Char) :
    parseValue (f + 1) (emitValue (.str s) ++ rest) = some (.str s, rest) := by
  rw [parseValue.eq_def]
  simp only [emitValue, emitString, List.cons_append, List.append_assoc,
    List.singleton_append]
  rw [skipWs_cons _ (by decide)]
  simp +decide only []
  rw [parseStringChars_escapeList]
  rfl


theorem pv_null (f : Nat) (rest : List Char) :
    parseValue (f + 1) (emitValue .null ++ rest) = some (.null, rest) := by
  rw [parseValue.eq_def]
  simp +decide [emitValue, skipWs]

theorem pv_bool (f : Nat) (b : Bool) (rest : List Char) :
    parseValue (f + 1) (emitValue (.bool b) ++ rest) = some (.bool b, rest) := by
  cases b <;> (rw [parseValue.eq_def]; simp +decide [emitValue, skipWs])

mutual

theorem parse_emit_value : ∀ (v : Json) (fuel : Nat), fuelValue v ≤ fuel →
    ∀ (rest : List Char), okTail rest = true →
    parseValue fuel (emitValue v ++ rest) = some (v, rest)
  | .null, fuel, hf, rest, hr => by
    obtain ⟨f, rfl⟩ : ∃ f, fuel = f + 1 := ⟨fuel - 1, by simp [fuelValue] at hf; omega⟩
    exact pv_null f rest
  | .bool b, fuel, hf, rest, hr => by
    obtain ⟨f, rfl⟩ : ∃ f, fuel = f + 1 := ⟨fuel - 1, by simp [fuelValue] at hf; omega⟩
    exact pv_bool f b rest
  | .num n, fuel, hf, rest, hr => by
    obtain ⟨f, rfl⟩ : ∃ f, fuel = f + 1 := ⟨fuel - 1, by simp [fuelValue] at hf; omega⟩
    exact pv_num f n rest hr
  | .str s, fuel, hf, rest, hr => by
    obtain ⟨f, rfl⟩ : ∃ f, fuel = f + 1 := ⟨fuel - 1, by simp [fuelValue] at hf; omega⟩
    exact pv_str f s rest
  | .arr [], fuel, hf, rest, hr => by
    obtain ⟨f, rfl⟩ : ∃ f, fuel = f + 1 := ⟨fuel - 1, by simp [fuelValue] at hf; omega⟩
    rw [parseValue.eq_def]
    simp +decide [emitValue, emitElems, skipWs]
  | .arr (x :: xs), fuel, hf, rest, hr => by
    obtain ⟨f, rfl⟩ : ∃ f, fuel = f + 1 :=
      ⟨fuel - 1, by simp [fuelValue, fuelElems] at hf; omega⟩
    have hfx : fuelValue x ≤ f := by
      simp [fuelValue, fuelElems] at hf; omega
    have hfl : fuelElems xs + 1 ≤ f := by
      simp [fuelValue, fuelElems] at hf; omega
    obtain ⟨c, t, hct, hnws, hne⟩ := emitValue_shape x
    rw [parseValue.eq_def]
    simp only [emitValue, emitElems, List.cons_append, List.append_assoc,
      List.singleton_append]
    rw [skipWs_cons _ (by decide)]
    simp +decide only []
    rw [hct, List.cons_append, skipWs_cons _ hnws]
    simp only [hne, if_false, ite_false, if_true, ite_true, List.nil_append]
    rw [show c :: (t ++ (emitElemsTail xs ++ ']' :: rest)) =
          (c :: t) ++ (emitElemsTail xs ++ ']' :: rest) from rfl, ← hct]
    rw [parse_emit_value x f hfx _ (okTail_elems xs rest)]
    simp [parse_emit_elems xs f hfl rest]
  | .obj [], fuel, hf, rest, hr => by
    obtain ⟨f, rfl⟩ : ∃ f, fuel = f + 1 := ⟨fuel - 1, by simp [fuelValue] at hf; omega⟩
    rw [parseValue.eq_def]
    simp +decide [emitValue, emitFields, skipWs]
  | .obj ((k, w) :: fs), fuel, hf, rest, hr => by
    obtain ⟨f, rfl⟩ : ∃ f, fuel = f + 1 :=
      ⟨fuel - 1, by simp [fuelValue, fuelFields] at hf; omega⟩
    have hfw : fuelValue w + 1 ≤ f := by
      simp [fuelValue, fuelFields] at hf; omega
    have hfl : fuelFields fs + 1 ≤ f := by
      simp [fuelValue, fuelFields] at hf; omega
    rw [parseValue.eq_def]
    simp only [emitValue, emitFields, emitString, List.cons_append, List.append_assoc,
      List.singleton_append]
    rw [skipWs_cons _ (by decide)]
    simp +decide only []
    rw [skipWs_cons _ (by decide)]
    simp +decide only [List.nil_append]
    rw [parse_emit_field k.data w f hfw _ (okTail_fields fs rest)]
    simp [parse_emit_fields fs f hfl rest]
termination_by v => sizeOf v

theorem parse_emit_elems : ∀ (xs : List Json) (fuel : Nat), fuelElems xs + 1 ≤ fuel →
    ∀ (rest : List Char),
    parseElemsTail fuel (emitElemsTail xs ++ ']' :: rest) = some (xs, rest)
  | [], fuel, hf, rest => by
    obtain ⟨f, rfl⟩ : ∃ f, fuel = f + 1 := ⟨fuel - 1, by omega⟩
    rw [parseElemsTail.eq_def]
    simp +decide [emitElemsTail, skipWs]
  | x :: xs, fuel, hf, rest => by
    obtain ⟨f, rfl⟩ : ∃ f, fuel = f + 1 := ⟨fuel - 1, by omega⟩
    have hfx : fuelValue x ≤ f := by
      simp [fuelElems] at hf; omega
    have hfl : fuelElems xs + 1 ≤ f := by
      simp [fuelElems] at hf; omega
    rw [parseElemsTail.eq_def]
    simp only [emitElemsTail, List.cons_append, List.append_assoc, List.singleton_append]
    rw [skipWs_cons _ (by decide)]
    simp +decide only [List.nil_append]
    rw [parse_emit_value x f hfx _ (okTail_elems xs rest)]
    simp [parse_emit_elems xs f hfl rest]
termination_by xs => sizeOf xs

theorem parse_emit_field : ∀ (kl : List Char) (v : Json) (fuel : Nat),
    fuelValue v + 1 ≤ fuel → ∀ (rest : List Char), okTail rest = true →
    parseField fuel ('"' :: (escapeList kl ++ '"' :: ':' :: (emitValue v ++ rest))) =
      some ((String.mk kl, v), rest)
  | kl, v, fuel, hf, rest, hr => by
    obtain ⟨f, rfl⟩ : ∃ f, fuel = f + 1 := ⟨fuel - 1, by omega⟩
    have hfv : fuelValue v ≤ f := by omega
    rw [parseField.eq_def]
    simp +decide only []
    rw [skipWs_cons _ (by decide)]
    simp +decide only []
    rw [parseStringChars_escapeList]
    simp only [if_true, ite_true, List.nil_append]
    rw [skipWs_cons _ (by decide)]
    simp +decide only []
    rw [parse_emit_value v f hfv _ hr]
    rfl
termination_by _ v => sizeOf v + 1

theorem parse_emit_fields : ∀ (fs : List (String × Json)) (fuel : Nat),
    fuelFields fs + 1 ≤ fuel → ∀ (rest : List Char),
    parseFieldsTail fuel (emitFieldsTail fs ++ '}' :: rest) = some (fs, rest)
  | [], fuel, hf, rest => by
    obtain ⟨f, rfl⟩ : ∃ f, fuel = f + 1 := ⟨fuel - 1, by omega⟩
    rw [parseFieldsTail.eq_def]
    simp +decide [emitFieldsTail, skipWs]
  | (k, w) :: fs, fuel, hf, rest => by
    obtain ⟨f, rfl⟩ : ∃ f, fuel = f + 1 := ⟨fuel - 1, by omega⟩
    have hfw : fuelValue w + 1 ≤ f := by
      simp [fuelFields] at hf; omega
    have hfl : fuelFields fs + 1 ≤ f := by
      simp [fuelFields] at hf; omega
    rw [parseFieldsTail.eq_def]
    simp only [emitFieldsTail, emitString, List.cons_append, List.append_assoc,
      List.singleton_append]
    rw [skipWs_cons _ (by decide)]
    simp +decide only [List.nil_append]
    rw [parse_emit_field k.data w f hfw _ (okTail_fields fs rest)]
    simp [parse_emit_fields fs f hfl rest]
termination_by fs => sizeOf fs

end


mutual

theorem fuelValue_le : ∀ v : Json, fuelValue v ≤ (emitValue v).length
  | .null => by simp [fuelValue, emitValue]
  | .bool b => by cases b <;> simp [fuelValue, emitValue]
  | .num n => by
    obtain ⟨d, t, hdt, -⟩ := natChars_shape n.natAbs
    obtain ⟨d2, t2, hdt2, -⟩ := natChars_shape n.toNat
    by_cases hn : n < 0 <;> simp [fuelValue, emitValue, intChars, hn, hdt, hdt2]
  | .str s => by simp [fuelValue, emitValue, emitString]
  | .arr [] => by simp [fuelValue, fuelElems, emitValue, emitElems]
  | .arr (x :: t) => by
    have hx := fuelValue_le x
    have ht := fuelElems_le t
    simp only [fuelValue, fuelElems, emitValue, emitElems, List.length_cons,
      List.length_append]
    omega
  | .obj [] => by simp [fuelValue, fuelFields, emitValue, emitFields]
  | .obj ((k, w) :: t) => by
    have hw := fuelValue_le w
    have ht := fuelFields_le t
    simp only [fuelValue, fuelFields, emitValue, emitFields, emitString, List.length_cons,
      List.length_append]
    omega
termination_by v => sizeOf v

theorem fuelElems_le : ∀ xs : List Json, fuelElems xs ≤ (emitElemsTail xs).length
  | [] => by simp [fuelElems, emitElemsTail]
  | x :: xs => by
    have hx := fuelValue_le x
    have ht := fuelElems_le xs
    simp only [fuelElems, emitElemsTail, List.length_cons, List.length_append]
    omega
termination_by xs => sizeOf xs

theorem fuelFields_le : ∀ fs : List (String × Json), fuelFields fs ≤ (emitFieldsTail fs).length
  | [] => by simp [fuelFields, emitFieldsTail]
  | (k, w) :: fs => by
    have hw := fuelValue_le w
    have ht := fuelFields_le fs
    simp only [fuelFields, emitFieldsTail, List.length_cons, List.length_append, emitString]
    omega
termination_by fs => sizeOf fs

end

/-- Round-trip of the Payload Codec: parsing the serializer's output yields
the original JSON value. -/
theorem jsonParse_jsonStringify (v : Json) : jsonParse (jsonStringify v) = some v := by
  have hfuel : fuelValue v ≤ (emitValue v).length + 1 := by
    have := fuelValue_le v; omega
  have h := parse_emit_value v ((emitValue v).length + 1) hfuel [] (by rfl)
  rw [List.append_nil] at h
  have hd : (jsonStringify v).data = emitValue v := rfl
  have hl : (jsonStringify v).length = (emitValue v).length := rfl
  unfold jsonParse
  rw [hd, hl, h]
  rfl

/-! ## String helpers used by the handlers -/

/-- Model of `body.id.trim()`: strip leading and trailing whitespace (over the
common ASCII whitespace characters; the ECMAScript set is larger but no
claim involves the exotic ones). -/
def jsTrim (s : String) : String :=
  String.mk (((s.data.dropWhile (fun c => isWs c)).reverse.dropWhile
    (fun c => isWs c)).reverse)

/-- Whether `pat` is a leading piece of the second list. -/
def listIsPre : List Char → List Char → Bool
  | [], _ => true
  | _ :: _, [] => false
  | a :: as, b :: bs => a == b && listIsPre as bs

/-- Whether `pat` occurs somewhere inside the list. -/
def listHasSub (pat : List Char) : List Char → Bool
  | [] => listIsPre pat []
  | c :: t => listIsPre pat (c :: t) || listHasSub pat t

/-- Model of `s.includes(pat)`, as used by the catch clause of `POST /events` to
recognise the SQLite unique-constraint error message. -/
def strContains (s pat : String) : Bool :=
  listHasSub pat.data s.data

/-- Longest leading run of decimal digits, `none` when there is none. -/
def leadNat : List Char → Option Nat
  | [] => none
  | c :: r => if c.isDigit then some (parseDigits 0 (c :: r)).1 else none

/-- Model of `Number.parseInt(s, 10)`: skip leading whitespace, optional
sign, then the longest leading run of decimal digits; `none` models `NaN`
(no digits at all).  Trailing non-digit characters are ignored, exactly as
in JS. -/
def jsParseInt (s : String) : Option Int :=
  match s.data.dropWhile (fun c => isWs c) with
  | '-' :: r => (leadNat r).map (fun n => -(n : Int))
  | '+' :: r => (leadNat r).map (fun n => (n : Int))
  | r => (leadNat r).map (fun n => (n : Int))

/-- The canonical `toISOString` shape `YYYY-MM-DDTHH:MM:SS.mmmZ`.  The
source's `isIsoTimestamp` is `!Number.isNaN(Date.parse(value))`; `Date.parse`
is host-runtime behaviour, modelled here as acceptance of the canonical
ISO-8601 UTC form that the service itself writes via `toISOString`
(`Date.parse` accepts a superset; no claim depends on that boundary — the
empty string, which `Date.parse` rejects, is short-circuited by the handler
before this check ever runs). -/
def isoShape : List Char → Bool
  | [y1, y2, y3, y4, a1, m1, m2, a2, d1, d2, tc, h1, h2, c1, i1, i2, c2, s1, s2, dt,
     f1, f2, f3, zc] =>
    y1.isDigit && y2.isDigit && y3.isDigit && y4.isDigit && a1 == '-' &&
    m1.isDigit && m2.isDigit && a2 == '-' && d1.isDigit && d2.isDigit &&
    tc == 'T' && h1.isDigit && h2.isDigit && c1 == ':' && i1.isDigit && i2.isDigit &&
    c2 == ':' && s1.isDigit && s2.isDigit && dt == '.' &&
    f1.isDigit && f2.isDigit && f3.isDigit && zc == 'Z'
  | _ => false

/-- The source's `isIsoTimestamp` validation for `after` / `before`. -/
def isIsoTimestamp (s : String) : Bool :=
  isoShape s.data

/-! ## SQLite TEXT comparison

The `events.ts` column is `TEXT`; the scan's `ts > ?` / `ts < ?` conditions
and `ORDER BY ts DESC` compare with SQLite's default BINARY collation
(byte-wise `memcmp`), which on the UTF-8 encodings the service stores agrees
with code-point lexicographic order, modelled here directly. -/

/-- Strict lexicographic order on character lists by code point. -/
def listLexLt : List Char → List Char → Bool
  | [], [] => false
  | [], _ :: _ => true
  | _ :: _, [] => false
  | a :: as, b :: bs =>
    if a.toNat < b.toNat then true
    else if b.toNat < a.toNat then false
    else listLexLt as bs

/-- SQLite `<` on two TEXT values. -/
def tsLt (a b : String) : Bool :=
  listLexLt a.data b.data

theorem listLexLt_irrefl : ∀ l : List Char, listLexLt l l = false
  | [] => rfl
  | a :: as => by simp [listLexLt, listLexLt_irrefl as]

theorem listLexLt_trans : ∀ {a b c : List Char}, listLexLt a b = true →
    listLexLt b c = true → listLexLt a c = true
  | [], [], _, hab, _ => by simp [listLexLt] at hab
  | _ :: _, [], _, hab, _ => by simp [listLexLt] at hab
  | [], _ :: _, [], _, hbc => by simp [listLexLt] at hbc
  | _ :: _, _ :: _, [], _, hbc => by simp [listLexLt] at hbc
  | [], _ :: _, _ :: _, _, _ => rfl
  | a :: as, b :: bs, c :: cs, hab, hbc => by
    simp only [listLexLt] at hab hbc ⊢
    rcases Nat.lt_trichotomy a.toNat b.toNat with h1 | h1 | h1
    · rcases Nat.lt_trichotomy b.toNat c.toNat with h2 | h2 | h2
      · simp [show a.toNat < c.toNat by omega]
      · simp [show a.toNat < c.toNat by omega]
      · simp [show ¬b.toNat < c.toNat by omega, show c.toNat < b.toNat from h2] at hbc
    · rcases Nat.lt_trichotomy b.toNat c.toNat with h2 | h2 | h2
      · simp [show a.toNat < c.toNat by omega]
      · simp [show ¬a.toNat < b.toNat by omega, show ¬b.toNat < a.toNat by omega] at hab
        simp [show ¬b.toNat < c.toNat by omega, show ¬c.toNat < b.toNat by omega] at hbc
        simp [show ¬a.toNat < c.toNat by omega, show ¬c.toNat < a.toNat by omega,
          listLexLt_trans hab hbc]
      · simp [show ¬b.toNat < c.toNat by omega, show c.toNat < b.toNat from h2] at hbc
    · simp [show ¬a.toNat < b.toNat by omega, show b.toNat < a.toNat from h1] at hab

theorem char_toNat_inj {a b : Char} (h : a.toNat = b.toNat) : a = b := by
  have ha := Char.ofNat_toNat a
  have hb := Char.ofNat_toNat b
  rw [← ha, ← hb, h]

theorem listLexLt_tricho : ∀ a b : List Char,
    listLexLt a b = true ∨ a = b ∨ listLexLt b a = true
  | [], [] => .inr (.inl rfl)
  | [], _ :: _ => .inl rfl
  | _ :: _, [] => .inr (.inr rfl)
  | a :: as, b :: bs => by
    rcases Nat.lt_trichotomy a.toNat b.toNat with h | h | h
    · exact .inl (by simp [listLexLt, h])
    · have hab : a = b := char_toNat_inj h
      subst hab
      rcases listLexLt_tricho as bs with h2 | h2 | h2
      · exact .inl (by simp [listLexLt, h2])
      · exact .inr (.inl (by rw [h2]))
      · exact .inr (.inr (by simp [listLexLt, h2]))
    · exact .inr (.inr (by simp [listLexLt, h]))

theorem tsLt_irrefl (a : String) : tsLt a a = false := listLexLt_irrefl a.data

theorem tsLt_trans {a b c : String} (h1 : tsLt a b = true) (h2 : tsLt b c = true) :
    tsLt a c = true := listLexLt_trans h1 h2

theorem tsLt_tricho (a b : String) : tsLt a b = true ∨ a = b ∨ tsLt b a = true := by
  rcases listLexLt_tricho a.data b.data with h | h | h
  · exact .inl h
  · exact .inr (.inl (congrArg String.mk h))
  · exact .inr (.inr h)

theorem tsLt_asymm {a b : String} (h : tsLt a b = true) : tsLt b a = false := by
  cases hb : tsLt b a
  · rfl
  · have := tsLt_trans h hb
    rw [tsLt_irrefl] at this
    cases this

/-! ## Data model: the `events` table and HTTP responses

Schema (README / wrangler migrations):
`events(id TEXT PRIMARY KEY, ts TEXT NOT NULL, payload TEXT NOT NULL
CHECK (json_valid(payload)))`.  The handlers only ever insert codec output,
which is valid JSON, so the CHECK constraint is not modelled separately. -/

/-- One row of the `events` table (`EventRow` in the source). -/
structure EventRow where
  id : String
  ts : String
  payload : String
deriving Repr, DecidableEq

/-- A `c.json(body, status)` response. -/
structure HttpResponse where
  status : Nat
  body : Json
deriving Repr

/-- Response `c.json(..., status)` carrying an error message body. -/
def jsonError (status : Nat) (msg : String) : HttpResponse :=
  { status := status, body := .obj [("error", .str msg)] }

/-- D1 executing `INSERT INTO events (id, ts, payload) VALUES (?, ?, ?)`:
on a duplicate primary key, SQLite raises its unique-constraint error (the
message the handler's catch clause inspects); otherwise the row is appended.
(`result.success` is `true` whenever D1 does not throw, so the handler's
`!result.success` → 500 branch has no corresponding model state; it is kept
in `storeErrorResponse` for the response-taxonomy claims.) -/
def insertEvent (db : List EventRow) (id ts payload : String) :
    Except String (List EventRow) :=
  if db.any (fun r => r.id == id) then
    .error "UNIQUE constraint failed: events.id"
  else
    .ok (db ++ [{ id := id, ts := ts, payload := payload }])

/-- The 409 response of `POST /events` for a duplicate id. -/
def conflictResponse : HttpResponse :=
  { status := 409, body := .obj [("error", .str "Event with this id already exists")] }

/-- The 500 response of `POST /events` when the store reports failure. -/
def storeErrorResponse : HttpResponse :=
  jsonError 500 "Failed to insert event"

/-- The parsed JSON body of `POST /events` (`EventCreateRequest` in the
source): `id` may be absent or any JSON value (the handler checks
`typeof body.id !== 'string'` at runtime); `payload` may be absent
(`undefined`) or any JSON value; `ts` models the extra body field a client
may send (it was accepted by an earlier design iteration) — the current
handler never reads it. -/
structure EventCreateRequest where
  id : Option Json := none
  payload : Option Json := none
  ts : Option Json := none

/-- The `POST /events` handler (src/index.ts, final iteration).  Host effects
are explicit arguments: `genId` is the value `generateEventId()` would
return, `now` the value of `new Date().toISOString()`.  Returns the response
together with the table contents after the request. -/
def postEvents (db : List EventRow) (genId now : String) (body : EventCreateRequest) :
    HttpResponse × List EventRow :=
  let idStep : Except HttpResponse String :=
    match body.id with
    | none => .ok genId
    | some (.str s) =>
      if (jsTrim s).length = 0 then
        .error (jsonError 400 "id must be a non-empty string when provided")
      else .ok (jsTrim s)
    | some _ => .error (jsonError 400 "id must be a non-empty string when provided")
  match idStep with
  | .error e => (e, db)
  | .ok eventId =>
    match body.payload with
    | none => (jsonError 400 "payload is required", db)
    | some payload =>
      let timestamp := now
      let payloadJson := jsonStringify payload
      match insertEvent db eventId timestamp payloadJson with
      | .ok db2 =>
        ({ status := 201, body := .obj [("success", .bool true), ("id", .str eventId)] },
          db2)
      | .error msg =>
        if strContains msg "UNIQUE constraint failed" then (conflictResponse, db)
        else (jsonError 500 msg, db)

/-! ## The `GET /events` handler -/

/-- The query parameters of `GET /events`; `none` is an absent parameter
(`c.req.query` returning `undefined`). -/
structure EventsQueryParams where
  limit : Option String := none
  after : Option String := none
  before : Option String := none
  id : Option String := none

/-- JS truthiness of a possibly-absent string (`if (after) ...`): present and
non-empty. -/
def truthy : Option String → Bool
  | none => false
  | some s => !(s == "")

/-- A parameter contributes a `WHERE` condition only when truthy. -/
def presentParam : Option String → Option String
  | none => none
  | some s => if s == "" then none else some s

/-- D1 executing the query the handler builds:
`SELECT * FROM events [WHERE id = ? / ts > ? / ts < ?] ORDER BY ts DESC
LIMIT ?`.  Rows with equal `ts` appear in an unspecified relative order in
SQLite; the model picks insertion sort (a stable choice — no claim under
study depends on tie order). -/
def scanEvents (db : List EventRow) (idF afterF beforeF : Option String)
    (lim : Nat) : List EventRow :=
  ((db.filter fun r =>
      (match idF with | none => true | some i => r.id == i) &&
      (match afterF with | none => true | some a => tsLt a r.ts) &&
      (match beforeF with | none => true | some b => tsLt r.ts b)).insertionSort
    (fun x y => tsLt x.ts y.ts = false)).take lim

/-- The `limit` block of `GET /events`: default 100 when absent, otherwise
`Number.parseInt(limitParam, 10)` must yield a positive number (else the 400
validation response) and is clamped to 500 by `Math.min(parsed, 500)`. -/
def parseLimit : Option String → Except HttpResponse Int
  | none => .ok 100
  | some lp =>
    match jsParseInt lp with
    | none => .error (jsonError 400 "limit must be a positive integer")
    | some v =>
      if v ≤ 0 then .error (jsonError 400 "limit must be a positive integer")
      else .ok (min v 500)

/-- Validation part of `GET /events`: either an error response, or the rows
D1 returns for the query the handler builds. -/
def getEventsScan (db : List EventRow) (q : EventsQueryParams) :
    Except HttpResponse (List EventRow) :=
  match parseLimit q.limit with
  | .error e => .error e
  | .ok lim =>
    if truthy q.after && !isIsoTimestamp (q.after.getD "") then
      .error (jsonError 400 "after must be a valid ISO timestamp")
    else if truthy q.before && !isIsoTimestamp (q.before.getD "") then
      .error (jsonError 400 "before must be a valid ISO timestamp")
    else
      .ok (scanEvents db (presentParam q.id) (presentParam q.after)
        (presentParam q.before) lim.toNat)

/-- Payload decode of one stored row in `GET /events`:
`event.payload ? JSON.parse(event.payload) : null`, with the catch clause
returning the raw stored text. -/
def decodeStoredPayload (p : String) : Json :=
  if p == "" then Json.null
  else
    match jsonParse p with
    | some v => v
    | none => .str p

/-- One element of the `events` array in the response body. -/
def eventJson (r : EventRow) : Json :=
  .obj [("id", .str r.id), ("ts", .str r.ts), ("payload", decodeStoredPayload r.payload)]

/-- The `GET /events` handler. -/
def getEvents (db : List EventRow) (q : EventsQueryParams) : HttpResponse :=
  match getEventsScan db q with
  | .error e => e
  | .ok rows =>
    { status := 200, body := .obj [("events", .arr (rows.map eventJson))] }

/-! ## The legacy `POST /jobs` handler (final iteration, src/index.ts)

Still served by the final iteration of the source, together with
`GET /runs/:run_id`, `GET /runs/:run_id/latest` and
`GET /executions/:n8n_execution_id`. -/

/-- The parsed body of `POST /jobs` (`JobCreateRequest` in the source).
`n8n_status_code` is `none` when absent or not a number (the handler checks
`typeof body.n8n_status_code !== 'number'`); the string fields model the JS
falsiness check `!body.run_id` by the empty string. -/
structure JobCreateRequest where
  run_id : String
  n8n_workflow_id : String
  n8n_execution_id : String
  n8n_status_code : Option Int
  n8n_status_message : String
  data : Option (List (String × Json)) := none
  metadata : Option (List (String × Json)) := none

/-- One row of the legacy `jobs` table. -/
structure JobRow where
  id : Nat
  run_id : String
  n8n_workflow_id : String
  n8n_execution_id : String
  n8n_status_code : Int
  n8n_status_message : String
  r2_pointer : Option String
  metadata : Option String
  created_at : String
deriving Repr

/-- The `POST /jobs` handler of the final iteration.  `r2` is the blob store
(key/value pairs), `nowMs` the value of `Date.now()` used in the R2 key, and
`createdAt` the `CURRENT_TIMESTAMP` default the store assigns; the inserted
row id models SQLite's `last_row_id` for the AUTOINCREMENT key. -/
def postJobs (jobs : List JobRow) (r2 : List (String × String)) (nowMs : Nat)
    (createdAt : String) (body : JobCreateRequest) :
    HttpResponse × List JobRow × List (String × String) :=
  match body.n8n_status_code with
  | none => (jsonError 400 "Missing required fields", jobs, r2)
  | some code =>
    if body.run_id == "" || body.n8n_workflow_id == "" ||
        body.n8n_execution_id == "" || body.n8n_status_message == "" then
      (jsonError 400 "Missing required fields", jobs, r2)
    else
      let hasData : Bool := match body.data with
        | some fs => !fs.isEmpty
        | none => false
      let hasMetadata : Bool := match body.metadata with
        | some fs => !fs.isEmpty
        | none => false
      let r2Key : Option String :=
        if hasData then
          some ("results/" ++ body.run_id ++ "/" ++ body.n8n_workflow_id ++ "/" ++
            body.n8n_execution_id ++ "/" ++ String.mk (natChars nowMs) ++ ".json")
        else none
      let r2' : List (String × String) :=
        match r2Key, body.data with
        | some k, some fs => r2 ++ [(k, jsonStringify (.obj fs))]
        | _, _ => r2
      let code2 : Int := if hasData then 200 else code
      let msg2 : String := if hasData then "result_stored" else body.n8n_status_message
      let metadataJson : Option String :=
        match hasMetadata, body.metadata with
        | true, some fs => some (jsonStringify (.obj fs))
        | _, _ => none
      let row : JobRow :=
        { id := jobs.length + 1, run_id := body.run_id,
          n8n_workflow_id := body.n8n_workflow_id,
          n8n_execution_id := body.n8n_execution_id,
          n8n_status_code := code2, n8n_status_message := msg2,
          r2_pointer := r2Key, metadata := metadataJson, created_at := createdAt }
      let respFields : List (String × Json) :=
        [("success", .bool true), ("id", .num (jobs.length + 1 : Int))] ++
        (match r2Key with
         | some k => [("r2_pointer", .str k), ("key", .str k)]
         | none => []) ++
        (match hasMetadata, body.metadata with
         | true, some fs => [("metadata", .obj fs)]
         | _, _ => [])
      ({ status := 201, body := .obj respFields }, jobs ++ [row], r2')

/-! ## The `POST /events/query` handler

Modelled from the spec: the repository's `POST /events/query` route is listed
in README.md (§ API) and docs/about.md and described by spec §4.7, but its
handler code is not present under src/.  Per the spec: the statement, after
trimming and case-normalizing, must begin with the read-only query keyword
(`select`); the handler scans the normalized text for a fixed block-list of
mutating keywords and rejects the request with `ValidationError` (HTTP 400)
if any appears anywhere in the text; otherwise it delegates to the Ledger
Store Adapter's `rawQuery` and reports rows plus row count and duration. -/

/-- Modelled from the spec: the fixed block-list of mutating keywords. -/
def blockedKeywords : List String :=
  ["insert", "update", "delete", "drop", "alter", "create", "truncate", "replace"]

/-- Model of `s.toLowerCase()` (code-point-wise, ASCII-relevant part). -/
def jsToLower (s : String) : String :=
  String.mk (s.data.map Char.toLower)

/-- Modelled from the spec: trim and case-normalize the statement. -/
def normalizeSql (sql : String) : String :=
  jsToLower (jsTrim sql)

/-- Modelled from the spec: some block-listed keyword occurs anywhere in the
normalized text. -/
def sqlHasBlocked (sql : String) : Bool :=
  blockedKeywords.any (fun k => strContains (normalizeSql sql) k)

/-- Modelled from the spec: the `POST /events/query` handler.  `runQ` stands
for the store's `rawQuery` (rows returned and duration in ms for the given
statement and positional parameters); the returned flag records whether
`rawQuery` was invoked at all. -/
def postEventsQuery (runQ : String → List Json → List Json × Nat)
    (sql : String) (params : List Json) : HttpResponse × Bool :=
  let norm := normalizeSql sql
  if !listIsPre "select".data norm.data then
    (jsonError 400 "Only SELECT statements are allowed", false)
  else if sqlHasBlocked sql then
    (jsonError 400 "Query contains a forbidden keyword", false)
  else
    let res := runQ sql params
    ({ status := 200,
       body := .obj [("results", .arr res.1),
         ("meta", .obj [("rows_read", .num (res.1.length : Int)),
           ("duration_ms", .num (res.2 : Int))])] }, true)


/-! ## Claims -/

theorem jsonStringify_ne_empty (v : Json) : jsonStringify v ≠ "" := by
  obtain ⟨c, t, hct, -, -⟩ := emitValue_shape v
  intro he
  have := congrArg String.data he
  rw [jsonStringify] at this
  simp [hct] at this

/-- C8: round-trip of the Payload Codec — for every JSON value `v` the codec
accepts (every `v : Json`; `JSON.stringify` cannot fail on such values),
decoding the encoded text yields `v` again; consequently a payload stored by
`POST /events` is returned unchanged by `GET /events`' tolerant decode. -/
theorem C8_codec_round_trip (v : Json) :
    jsonParse (jsonStringify v) = some v ∧
      decodeStoredPayload (jsonStringify v) = v := by
  have h := jsonParse_jsonStringify v
  refine ⟨h, ?_⟩
  have hne : jsonStringify v ≠ "" := jsonStringify_ne_empty v
  simp [decodeStoredPayload, hne, h]

/-- C9 counterexample: a stored row whose payload text is the empty string —
which is malformed JSON (`JSON.parse("")` throws) — is returned by
`GET /events` with payload `null`, not with the raw stored text `""` as the
claim requires (the handler's `event.payload ? ... : null` treats the empty
string as falsy and never reaches the tolerant-decode fallback). -/
theorem C9_counterexample :
    jsonParse "" = none ∧
    getEvents [{ id := "e1", ts := "2024-01-01T00:00:00.000Z", payload := "" }] {} =
      { status := 200, body := .obj [("events", .arr [.obj [("id", .str "e1"),
        ("ts", .str "2024-01-01T00:00:00.000Z"), ("payload", Json.null)]])] } ∧
    Json.null ≠ Json.str "" :=
  ⟨rfl, rfl, fun h => Json.noConfusion h⟩

/-- C9 (amended): payload decoding in `GET /events` never raises: an empty
stored payload text yields JSON `null`, any other text that fails to parse is
returned verbatim as the payload value, and every request that passes
parameter validation returns HTTP 200 regardless of the stored payload
bytes. -/
theorem C9_tolerant_decode :
    (∀ p : String, p ≠ "" → jsonParse p = none → decodeStoredPayload p = .str p) ∧
    decodeStoredPayload "" = Json.null ∧
    (∀ db q rows, getEventsScan db q = .ok rows → (getEvents db q).status = 200) := by
  refine ⟨?_, rfl, ?_⟩
  · intro p hne hparse
    simp [decodeStoredPayload, hne, hparse]
  · intro db q rows h
    simp [getEvents, h]

theorem C9_witness :
    decodeStoredPayload "[oops" = .str "[oops" ∧
    (getEvents [{ id := "e1", ts := "t", payload := "[oops" }] {}).status = 200 :=
  ⟨C9_tolerant_decode.1 "[oops" (by decide) rfl,
   C9_tolerant_decode.2.2 _ {} _ rfl⟩

/-- C1: a `POST /events` carrying a caller-supplied `id` equal to the id of
an already-stored event fails with the 409 duplicate-id conflict response
and leaves the table unchanged; that response is distinguishable from the
generic 500 store-error response.  (Instantiated by the witness as the
second of two inserts with the same caller-supplied id.) -/
theorem C1_duplicate_id_conflict (db : List EventRow) (genId now : String)
    (body : EventCreateRequest) (s : String)
    (hid : body.id = some (.str s)) (hs : (jsTrim s).length ≠ 0)
    (hp : body.payload.isSome = true)
    (hdup : (db.any fun r => r.id == jsTrim s) = true) :
    postEvents db genId now body = (conflictResponse, db) ∧
      conflictResponse.status = 409 ∧ storeErrorResponse.status = 500 ∧
      conflictResponse ≠ storeErrorResponse := by
  refine ⟨?_, rfl, rfl, ?_⟩
  · obtain ⟨p, hp2⟩ := Option.isSome_iff_exists.mp hp
    have hc : strContains "UNIQUE constraint failed: events.id"
        "UNIQUE constraint failed" = true := by decide
    simp [postEvents, hid, hp2, hs, insertEvent, hdup, hc]
  · intro h
    exact absurd (congrArg HttpResponse.status h) (by decide)

theorem C1_witness :
    (postEvents [] "gen-1" "2024-01-01T00:00:00.000Z"
      { id := some (.str "dup-1"), payload := some (.obj []) } =
      ({ status := 201, body := .obj [("success", .bool true), ("id", .str "dup-1")] },
        [{ id := "dup-1", ts := "2024-01-01T00:00:00.000Z", payload := "{}" }])) ∧
    (postEvents [{ id := "dup-1", ts := "2024-01-01T00:00:00.000Z", payload := "{}" }]
        "gen-2" "2024-01-02T00:00:00.000Z"
        { id := some (.str "dup-1"), payload := some (.obj []) } =
      (conflictResponse,
        [{ id := "dup-1", ts := "2024-01-01T00:00:00.000Z", payload := "{}" }]) ∧
      conflictResponse.status = 409 ∧ storeErrorResponse.status = 500 ∧
      conflictResponse ≠ storeErrorResponse) :=
  ⟨rfl,
   C1_duplicate_id_conflict
     [{ id := "dup-1", ts := "2024-01-01T00:00:00.000Z", payload := "{}" }]
     "gen-2" "2024-01-02T00:00:00.000Z"
     { id := some (.str "dup-1"), payload := some (.obj []) }
     "dup-1" rfl (by decide) rfl (by decide)⟩


/-- Shape of the table after any `POST /events`: unchanged, or extended by
exactly one row whose `ts` is the Timestamp Authority value `now`. -/
theorem string_eq_empty_of_length {s : String} (h : s.length = 0) : s = "" := by
  cases s with
  | mk l =>
    cases l with
    | nil => rfl
    | cons a as => simp [String.length] at h

theorem postEvents_table (db : List EventRow) (genId now : String)
    (body : EventCreateRequest) :
    (postEvents db genId now body).2 = db ∨
    ∃ i pj, (postEvents db genId now body).2 =
      db ++ [{ id := i, ts := now, payload := pj }] := by
  rcases hbid : body.id with - | jv
  · rcases hbp : body.payload with - | p
    · left; simp [postEvents, hbid, hbp]
    · by_cases hins : (db.any fun r => r.id == genId) = true
      · left
        have hc : strContains "UNIQUE constraint failed: events.id"
            "UNIQUE constraint failed" = true := by decide
        simp [postEvents, hbid, hbp, insertEvent, hins, hc]
      · right
        refine ⟨genId, jsonStringify p, ?_⟩
        simp only [Bool.not_eq_true] at hins
        simp [postEvents, hbid, hbp, insertEvent, hins]
  · rcases jv with - | b | n | s | xs | fs
    case str =>
      by_cases hlen : (jsTrim s).length = 0
      · left; simp [postEvents, hbid, hlen]
      · rcases hbp : body.payload with - | p
        · left; simp [postEvents, hbid, hbp, hlen]
        · by_cases hins : (db.any fun r => r.id == jsTrim s) = true
          · left
            have hc : strContains "UNIQUE constraint failed: events.id"
                "UNIQUE constraint failed" = true := by decide
            simp [postEvents, hbid, hbp, hlen, insertEvent, hins, hc]
          · right
            refine ⟨jsTrim s, jsonStringify p, ?_⟩
            simp only [Bool.not_eq_true] at hins
            simp [postEvents, hbid, hbp, hlen, insertEvent, hins]
    all_goals left
    all_goals simp [postEvents, hbid]

/-- C4: the stored `ts` is assigned by the server at insert time (the
Timestamp Authority value `now`), and a client-supplied `ts` body field is
ignored: the handler's result is identical for every value of that field,
and every row the request adds carries `ts = now`. -/
theorem C4_server_timestamp (db : List EventRow) (genId now : String)
    (body : EventCreateRequest) (v : Option Json) :
    postEvents db genId now { body with ts := v } = postEvents db genId now body ∧
    (∀ r, r ∈ (postEvents db genId now body).2 → r ∈ db ∨ r.ts = now) := by
  constructor
  · rfl
  · intro r hr
    rcases postEvents_table db genId now body with h | ⟨i, pj, h⟩
    · rw [h] at hr; exact .inl hr
    · rw [h] at hr
      rcases List.mem_append.mp hr with h2 | h2
      · exact .inl h2
      · right
        simp only [List.mem_singleton] at h2
        rw [h2]

theorem C4_witness :
    postEvents [] "g1" "2024-01-01T00:00:00.000Z"
      { payload := some (.obj []), ts := some (.str "1999-01-01T00:00:00.000Z") } =
      postEvents [] "g1" "2024-01-01T00:00:00.000Z" { payload := some (.obj []) } ∧
    (∀ r, r ∈ (postEvents [] "g1" "2024-01-01T00:00:00.000Z"
        { payload := some (.obj []) }).2 →
      r ∈ ([] : List EventRow) ∨ r.ts = "2024-01-01T00:00:00.000Z") :=
  C4_server_timestamp [] "g1" "2024-01-01T00:00:00.000Z"
    { payload := some (.obj []) } (some (.str "1999-01-01T00:00:00.000Z"))

/-- C7: `POST /events` id handling — (a) a present `id` that is not a string
or trims to the empty string is rejected with the 400 validation response
and nothing is stored; (b) a present valid `id` is stored trimmed and
reported in the 201 response; (c) an absent `id` is filled in by the
Identifier Generator and the 201 response reports that assigned id. -/
theorem C7_id_validation (db : List EventRow) (genId now : String) :
    (∀ body v, body.id = some v → (∀ s, v = Json.str s → jsTrim s = "") →
      postEvents db genId now body =
        (jsonError 400 "id must be a non-empty string when provided", db)) ∧
    (∀ body s p, body.id = some (.str s) → jsTrim s ≠ "" → body.payload = some p →
      (db.any fun r => r.id == jsTrim s) = false →
      postEvents db genId now body =
        ({ status := 201,
           body := .obj [("success", .bool true), ("id", .str (jsTrim s))] },
          db ++ [{ id := jsTrim s, ts := now, payload := jsonStringify p }])) ∧
    (∀ body p, body.id = none → body.payload = some p →
      (db.any fun r => r.id == genId) = false →
      postEvents db genId now body =
        ({ status := 201, body := .obj [("success", .bool true), ("id", .str genId)] },
          db ++ [{ id := genId, ts := now, payload := jsonStringify p }])) := by
  refine ⟨?_, ?_, ?_⟩
  · intro body v hid hv
    rcases v with - | b | n | s | xs | fs
    case str =>
      have h0 : jsTrim s = "" := hv s rfl
      have hlen : (jsTrim s).length = 0 := by rw [h0]; rfl
      simp [postEvents, hid, hlen]
    all_goals simp [postEvents, hid]
  · intro body s p hid hs hp hins
    have hlen : (jsTrim s).length ≠ 0 := fun h0 => hs (string_eq_empty_of_length h0)
    simp [postEvents, hid, hp, hlen, insertEvent, hins]
  · intro body p hid hp hins
    simp [postEvents, hid, hp, insertEvent, hins]


theorem C7_witness :
    postEvents [] "gen-7" "2024-03-01T00:00:00.000Z"
        { id := some (.num 5), payload := some .null } =
      (jsonError 400 "id must be a non-empty string when provided", []) ∧
    postEvents [] "gen-7" "2024-03-01T00:00:00.000Z"
        { id := some (.str "  k1 "), payload := some .null } =
      ({ status := 201, body := .obj [("success", .bool true), ("id", .str "k1")] },
        [{ id := "k1", ts := "2024-03-01T00:00:00.000Z", payload := "null" }]) ∧
    postEvents [] "gen-7" "2024-03-01T00:00:00.000Z" { payload := some .null } =
      ({ status := 201, body := .obj [("success", .bool true), ("id", .str "gen-7")] },
        [{ id := "gen-7", ts := "2024-03-01T00:00:00.000Z", payload := "null" }]) := by
  refine ⟨?_, ?_, ?_⟩
  · exact (C7_id_validation [] "gen-7" "2024-03-01T00:00:00.000Z").1
      _ (.num 5) rfl (fun s h => Json.noConfusion h)
  · have h := (C7_id_validation [] "gen-7" "2024-03-01T00:00:00.000Z").2.1
      { id := some (.str "  k1 "), payload := some .null } "  k1 " .null
      rfl (by decide) rfl (by decide)
    exact h
  · exact (C7_id_validation [] "gen-7" "2024-03-01T00:00:00.000Z").2.2
      { payload := some .null } .null rfl rfl (by decide)

/-- C10: a present-but-empty `id`, `after` or `before` query parameter is
treated exactly as an absent one — it is not validated (an empty `after` /
`before` is never checked as a timestamp, although the empty string is not a
valid one) and contributes no filter condition, so the handler behaves
identically to the request without the parameter. -/
theorem C10_empty_params (db : List EventRow) (q : EventsQueryParams) :
    isIsoTimestamp "" = false ∧
    (q.id = some "" → getEvents db q = getEvents db { q with id := none }) ∧
    (q.after = some "" → getEvents db q = getEvents db { q with after := none }) ∧
    (q.before = some "" → getEvents db q = getEvents db { q with before := none }) := by
  refine ⟨rfl, ?_, ?_, ?_⟩ <;>
    · intro h
      rcases q with ⟨ql, qa, qb, qi⟩
      simp only at h
      subst h
      simp [getEvents, getEventsScan, truthy, presentParam]

theorem C10_witness :
    getEvents [{ id := "e1", ts := "2024-01-01T00:00:00.000Z", payload := "1" }]
        { after := some "" } =
      getEvents [{ id := "e1", ts := "2024-01-01T00:00:00.000Z", payload := "1" }] {} ∧
    isIsoTimestamp "" = false :=
  ⟨(C10_empty_params [{ id := "e1", ts := "2024-01-01T00:00:00.000Z", payload := "1" }]
      { after := some "" }).2.2.1 rfl,
   (C10_empty_params [] {}).1⟩

instance : IsTotal EventRow (fun x y => tsLt x.ts y.ts = false) := ⟨by
  intro a b
  cases h : tsLt a.ts b.ts
  · exact .inl rfl
  · exact .inr (tsLt_asymm h)⟩

instance : IsTrans EventRow (fun x y => tsLt x.ts y.ts = false) := ⟨by
  intro a b c hab hbc
  cases hac : tsLt a.ts c.ts
  · rfl
  · exfalso
    rcases tsLt_tricho a.ts b.ts with h | h | h
    · rw [hab] at h; cases h
    · rw [h] at hac; rw [hbc] at hac; cases hac
    · have h2 := tsLt_trans h hac
      rw [hbc] at h2; cases h2⟩

/-- The rows produced by the modelled scan statement are pairwise descending
in `ts`. -/
theorem scanEvents_sorted (db : List EventRow) (idF aF bF : Option String) (lim : Nat) :
    (scanEvents db idF aF bF lim).Pairwise (fun x y => tsLt x.ts y.ts = false) := by
  unfold scanEvents
  exact List.Pairwise.sublist (List.take_sublist _ _)
    (List.sorted_insertionSort (fun x y : EventRow => tsLt x.ts y.ts = false) _)

theorem parseLimit_le {o : Option String} {lim : Int}
    (h : parseLimit o = .ok lim) : lim ≤ 500 := by
  rcases o with - | s
  · simp [parseLimit] at h; omega
  · simp only [parseLimit] at h
    rcases hp : jsParseInt s with - | v
    · rw [hp] at h; cases h
    · rw [hp] at h
      by_cases hv : v ≤ 0
      · simp [hv] at h
      · simp [hv] at h; omega

/-- Successful `GET /events` validation: the returned rows are exactly the
modelled scan for the present (truthy) parameters and the computed limit. -/
theorem getEventsScan_ok {db : List EventRow} {q : EventsQueryParams}
    {rows : List EventRow} (h : getEventsScan db q = .ok rows) :
    ∃ lim, parseLimit q.limit = .ok lim ∧
      rows = scanEvents db (presentParam q.id) (presentParam q.after)
        (presentParam q.before) lim.toNat := by
  unfold getEventsScan at h
  rcases hl : parseLimit q.limit with e | lim
  · rw [hl] at h; cases h
  · rw [hl] at h
    refine ⟨lim, rfl, ?_⟩
    split at h
    · rename_i e2 heq
      exact Except.noConfusion heq
    · rename_i lim2 heq
      rw [Except.ok.injEq] at heq
      subst heq
      split at h
      · cases h
      · split at h
        · cases h
        · rw [Except.ok.injEq] at h
          exact h.symm


/-- C5: `GET /events` returns rows ordered descending by `ts` (for any
request that passes validation), and `after`/`before` are exclusive bounds
on the stored timestamp string: for stored events at `t1 < t2 < t3`,
`after = t1` returns exactly the events at `t3, t2` (descending) and
`before = t3` exactly those at `t2, t1`. -/
theorem C5_order_and_bounds :
    (∀ db q rows, getEventsScan db q = .ok rows →
      rows.Pairwise (fun x y => tsLt x.ts y.ts = false)) ∧
    (∀ (e1 e2 e3 : EventRow) (t1 t2 t3 : String),
      e1.ts = t1 → e2.ts = t2 → e3.ts = t3 →
      tsLt t1 t2 = true → tsLt t2 t3 = true →
      isIsoTimestamp t1 = true → isIsoTimestamp t3 = true →
      getEventsScan [e1, e2, e3] { after := some t1 } = .ok [e3, e2] ∧
      getEventsScan [e1, e2, e3] { before := some t3 } = .ok [e2, e1]) := by
  constructor
  · intro db q rows h
    obtain ⟨lim, -, hrows⟩ := getEventsScan_ok h
    rw [hrows]
    exact scanEvents_sorted _ _ _ _ _
  · intro e1 e2 e3 t1 t2 t3 h1 h2 h3 h12 h23 hi1 hi3
    subst h1; subst h2; subst h3
    have htr := tsLt_trans h12 h23
    have hne1 : e1.ts ≠ "" := by
      intro he; rw [he] at hi1; exact absurd hi1 (by decide)
    have hne3 : e3.ts ≠ "" := by
      intro he; rw [he] at hi3; exact absurd hi3 (by decide)
    have hb1 : (e1.ts == "") = false := beq_eq_false_iff_ne.mpr hne1
    have hb3 : (e3.ts == "") = false := beq_eq_false_iff_ne.mpr hne3
    constructor
    · simp [getEventsScan, parseLimit, truthy, presentParam, hb1, hi1, scanEvents,
        tsLt_irrefl, h12, h23, htr, List.insertionSort, List.orderedInsert,
        tsLt_asymm h23]
    · simp [getEventsScan, parseLimit, truthy, presentParam, hb3, hi3, scanEvents,
        tsLt_irrefl, h12, h23, htr, List.insertionSort, List.orderedInsert,
        tsLt_asymm h12]

theorem C5_witness :
    getEventsScan
        [{ id := "e1", ts := "2024-01-01T00:00:00.000Z", payload := "1" },
         { id := "e2", ts := "2024-01-02T00:00:00.000Z", payload := "2" },
         { id := "e3", ts := "2024-01-03T00:00:00.000Z", payload := "3" }]
        { after := some "2024-01-01T00:00:00.000Z" } =
      .ok [{ id := "e3", ts := "2024-01-03T00:00:00.000Z", payload := "3" },
           { id := "e2", ts := "2024-01-02T00:00:00.000Z", payload := "2" }] ∧
    getEventsScan
        [{ id := "e1", ts := "2024-01-01T00:00:00.000Z", payload := "1" },
         { id := "e2", ts := "2024-01-02T00:00:00.000Z", payload := "2" },
         { id := "e3", ts := "2024-01-03T00:00:00.000Z", payload := "3" }]
        { before := some "2024-01-03T00:00:00.000Z" } =
      .ok [{ id := "e2", ts := "2024-01-02T00:00:00.000Z", payload := "2" },
           { id := "e1", ts := "2024-01-01T00:00:00.000Z", payload := "1" }] :=
  C5_order_and_bounds.2
    { id := "e1", ts := "2024-01-01T00:00:00.000Z", payload := "1" }
    { id := "e2", ts := "2024-01-02T00:00:00.000Z", payload := "2" }
    { id := "e3", ts := "2024-01-03T00:00:00.000Z", payload := "3" }
    "2024-01-01T00:00:00.000Z" "2024-01-02T00:00:00.000Z" "2024-01-03T00:00:00.000Z"
    rfl rfl rfl (by decide) (by decide) (by decide) (by decide)

/-- C6 counterexample: the claim says a supplied `limit` must be a positive
integer or the request fails with 400; but `limit=5.7` — not an integer — is
accepted (HTTP 200), because `Number.parseInt` stops at the first non-digit
and yields 5. -/
theorem C6_counterexample :
    jsParseInt "5.7" = some 5 ∧
    (getEvents [] { limit := some "5.7" }).status = 200 ∧ (200 : Nat) ≠ 400 :=
  ⟨rfl, rfl, by decide⟩

/-- C6 (amended): when `limit` is absent the limit is 100; a supplied
`limit` is read with `parseInt` semantics (leading integer prefix, trailing
characters ignored) and the request fails with the 400 validation response
exactly when no leading integer exists or the parsed value is non-positive;
parsed values above 500 are clamped to 500 rather than rejected; and at most
500 rows are ever returned. -/
theorem C6_limit_semantics :
    (∀ db, getEventsScan db {} = .ok (scanEvents db none none none 100)) ∧
    (∀ db (q : EventsQueryParams) s, q.limit = some s → jsParseInt s = none →
      getEvents db q = jsonError 400 "limit must be a positive integer") ∧
    (∀ db (q : EventsQueryParams) s v, q.limit = some s → jsParseInt s = some v →
      v ≤ 0 → getEvents db q = jsonError 400 "limit must be a positive integer") ∧
    (∀ db (q : EventsQueryParams) s v, q.limit = some s → jsParseInt s = some v →
      (500 : Int) < v →
      getEventsScan db q = getEventsScan db { q with limit := some "500" }) ∧
    (∀ db q rows, getEventsScan db q = .ok rows → rows.length ≤ 500) := by
  refine ⟨fun db => rfl, ?_, ?_, ?_, ?_⟩
  · intro db q s hq hparse
    simp [getEvents, getEventsScan, parseLimit, hq, hparse]
  · intro db q s v hq hparse hv
    simp [getEvents, getEventsScan, parseLimit, hq, hparse, hv]
  · intro db q s v hq hparse hv
    have h500 : jsParseInt "500" = some 500 := rfl
    have hmin : min v 500 = 500 := min_eq_right (by omega)
    simp [getEventsScan, parseLimit, hq, hparse, h500, hmin, show ¬v ≤ 0 by omega]
  · intro db q rows h
    obtain ⟨lim, hlim, hrows⟩ := getEventsScan_ok h
    have hle := parseLimit_le hlim
    rw [hrows]
    unfold scanEvents
    rw [List.length_take]
    omega

theorem C6_witness :
    getEventsScan [] {} = .ok (scanEvents [] none none none 100) ∧
    getEvents [] { limit := some "abc" } = jsonError 400 "limit must be a positive integer" ∧
    getEvents [] { limit := some "-2" } = jsonError 400 "limit must be a positive integer" ∧
    getEventsScan [] { limit := some "10000" } = getEventsScan [] { limit := some "500" } :=
  ⟨C6_limit_semantics.1 [],
   C6_limit_semantics.2.1 [] { limit := some "abc" } "abc" rfl rfl,
   C6_limit_semantics.2.2.1 [] { limit := some "-2" } "-2" (-2) rfl rfl (by decide),
   C6_limit_semantics.2.2.2.1 [] { limit := some "10000" } "10000" 10000 rfl rfl
     (by decide)⟩


/-- The concrete valid `POST /jobs` body used to exhibit the live legacy
route. -/
def c2Body : JobCreateRequest :=
  { run_id := "run-1", n8n_workflow_id := "wf-1", n8n_execution_id := "exec-1",
    n8n_status_code := some 200, n8n_status_message := "workflow_started" }

/-- C2: the deprecated historical routes are still live in the final
iteration of the source — a valid `POST /jobs` request passes validation,
inserts a `jobs` row (the table grows) and is answered with HTTP 201, not
410 Gone; the repo's own README/about.md state these routes were removed. -/
theorem C2_jobs_route_live :
    (postJobs [] [] 0 "2024-01-01 00:00:00" c2Body).1.status = 201 ∧
    (postJobs [] [] 0 "2024-01-01 00:00:00" c2Body).2.1 =
      [{ id := 1, run_id := "run-1", n8n_workflow_id := "wf-1",
         n8n_execution_id := "exec-1", n8n_status_code := 200,
         n8n_status_message := "workflow_started", r2_pointer := none,
         metadata := none, created_at := "2024-01-01 00:00:00" }] ∧
    (postJobs [] [] 0 "2024-01-01 00:00:00" c2Body).1.status ≠ 410 :=
  ⟨rfl, rfl, by decide⟩

/-- C3: any `POST /events/query` statement containing a block-listed
mutating keyword anywhere in its normalized text — even prefixed to look
like a SELECT — is rejected with the 400 validation response and nothing is
executed against the store. -/
theorem C3_blocklist_rejects
    (runQ : String → List Json → List Json × Nat) (sql : String) (params : List Json)
    (h : sqlHasBlocked sql = true) :
    (postEventsQuery runQ sql params).1.status = 400 ∧
    (postEventsQuery runQ sql params).2 = false := by
  by_cases hsel : listIsPre "select".data (normalizeSql sql).data
  · constructor <;> simp [postEventsQuery, jsonError, hsel, h]
  · constructor <;> simp [postEventsQuery, jsonError, hsel, h]

theorem C3_witness :
    sqlHasBlocked "SELECT * FROM events; DROP TABLE events" = true ∧
    (postEventsQuery (fun _ _ => ([], 0))
      "SELECT * FROM events; DROP TABLE events" []).1.status = 400 ∧
    (postEventsQuery (fun _ _ => ([], 0))
      "SELECT * FROM events; DROP TABLE events" []).2 = false :=
  ⟨by decide,
   (C3_blocklist_rejects (fun _ _ => ([], 0))
     "SELECT * FROM events; DROP TABLE events" [] (by decide)).1,
   (C3_blocklist_rejects (fun _ _ => ([], 0))
     "SELECT * FROM events; DROP TABLE events" [] (by decide)).2⟩

end Slugledger
